import Mathlib

/-!
Shallow embedding of the two data-holder classes of this repository:
MatrixUser (user-ID parsing and quoted-printable-style localpart escaping)
and RemoteRoom. JavaScript strings are modelled as lists of characters,
JavaScript values passed as the data argument as the inductive JSData, and
thrown errors as the Except monad.
-/

/-- A JavaScript string, modelled as its list of UTF-16 code units
(code points, for the BMP characters we consider). -/
abbrev Str := List Char

/-- The character class of the regex in escapeUserId:
([A-Z]|[a-z]|[0-9]|-|\.|=|_)+ . -/
def allowedChar (c : Char) : Bool :=
  (('A' ≤ c && c ≤ 'Z') || ('a' ≤ c && c ≤ 'z') || ('0' ≤ c && c ≤ '9')
    || c == '-' || c == '.' || c == '=' || c == '_')

/-- The lowercase hexadecimal digit for a value below 16,
as produced by Number.prototype.toString(16). -/
def hexDigit (n : Nat) : Char :=
  if n < 10 then Char.ofNat (48 + n) else Char.ofNat (87 + n)

/-- Fuel-driven recursion computing the minimal-length base-16 digit string. -/
def toHexAux : Nat → Nat → Str
  | 0, _ => []
  | fuel + 1, n =>
    if n < 16 then [hexDigit n]
    else toHexAux fuel (n / 16) ++ [hexDigit (n % 16)]

/-- n.toString(16) in JavaScript: minimal-length lowercase hexadecimal. -/
def toHex (n : Nat) : Str := toHexAux (n + 1) n

/-- The replacement text for one disallowed character:
an equals sign followed by the hex encoding of its code unit. -/
def escapeChar (c : Char) : Str := '=' :: toHex c.toNat

/-- str.replace(new RegExp(escaped-c, "g"), rep): replace every occurrence
of the single character c by the string rep. -/
def replaceChar (c : Char) (rep : Str) : Str → Str
  | [] => []
  | x :: xs =>
    if x = c then rep ++ replaceChar c rep xs
    else x :: replaceChar c rep xs

/-- new Set(string): the distinct characters in first-occurrence order. -/
def dedupFirst (seen : List Char) : Str → List Char
  | [] => []
  | c :: rest =>
    if c ∈ seen then dedupFirst seen rest
    else c :: dedupFirst (c :: seen) rest

/-- new Set(localpart.replace(allowed-run-regex, "")): the distinct
characters of the localpart that the regex does not allow. -/
def badChars (lp : Str) : List Char :=
  dedupFirst [] (lp.filter (fun c => !(allowedChar c)))

/-- The badChars.forEach loop: sequentially, for each character in L,
globally replace it by its escape text. -/
def foldReplace (L : List Char) (s : Str) : Str :=
  L.foldl (fun r c => replaceChar c (escapeChar c) r) s

/-- The body of escapeUserId acting on the localpart string. -/
def escapeLocalpart (lp : Str) : Str :=
  foldReplace (badChars lp) lp

/-- JavaScript values that can be passed as the data argument
or stored in the metadata bag. -/
inductive JSData where
  | jundefined : JSData
  | jnull : JSData
  | jbool : Bool → JSData
  | jnum : Int → JSData
  | jstr : Str → JSData
  | jarr : List JSData → JSData
  | jobj : List (Str × JSData) → JSData

/-- JavaScript truthiness of a value. -/
def truthy : JSData → Bool
  | .jundefined => false
  | .jnull => false
  | .jbool b => b
  | .jnum n => n != 0
  | .jstr s => !s.isEmpty
  | .jarr _ => true
  | .jobj _ => true

/-- Object.prototype.toString.call(v) == "[object Object]". -/
def isPlainObject : JSData → Bool
  | .jobj _ => true
  | _ => false

/-- The key-value entries of a plain object; empty for anything else. -/
def objEntries : JSData → List (Str × JSData)
  | .jobj es => es
  | _ => []

/-- obj[k] = v on a JavaScript object: overwrite an existing key in place,
append a new one. -/
def bagSet (b : List (Str × JSData)) (k : Str) (v : JSData) :
    List (Str × JSData) :=
  match b with
  | [] => [(k, v)]
  | (k1, v1) :: rest =>
    if k1 = k then (k, v) :: rest else (k1, v1) :: bagSet rest k v

/-- obj[k] on a JavaScript object. -/
def bagGet (b : List (Str × JSData)) (k : Str) : Option JSData :=
  match b with
  | [] => none
  | (k1, v1) :: rest => if k1 = k then some v1 else bagGet rest k

/-- The single error kind thrown by these classes (the spec's
InvalidArgument), carrying the thrown message. -/
inductive BridgeError where
  | invalidArgument : String → BridgeError
deriving DecidableEq

/-- str.split(":") in JavaScript: always at least one segment. -/
def splitOnColon : Str → List Str
  | [] => [[]]
  | c :: rest =>
    if c = ':' then [] :: splitOnColon rest
    else (c :: (splitOnColon rest).headD []) :: (splitOnColon rest).tail

/-- Template-literal coercion of the host field: undefined prints as
the text undefined. -/
def jsTemplateHost : Option Str → Str
  | none => "undefined".data
  | some h => h

/-- The state of a MatrixUser instance. -/
structure MatrixUser where
  userId : Str
  localpart : Str
  host : Option Str
  _data : List (Str × JSData)

/-- The static MatrixUser.ESCAPE_DEFAULT flag (initial value). -/
def MatrixUser.ESCAPE_DEFAULT : Bool := true

/-- MatrixUser.prototype.escapeUserId: escape the localpart and recompute
the userId from the template literal. -/
def MatrixUser.escapeUserId (u : MatrixUser) : MatrixUser :=
  let res := escapeLocalpart u.localpart
  { u with
    localpart := res
    userId := '@' :: res ++ ':' :: jsTemplateHost u.host }

/-- The MatrixUser constructor. The userId argument is an optional string
(none models an absent argument). -/
def MatrixUser.new (userId : Option Str) (data : JSData) (escape : Bool) :
    Except BridgeError MatrixUser :=
  match userId with
  | none => .error (.invalidArgument "Missing user_id")
  | some uid =>
    if uid.isEmpty then .error (.invalidArgument "Missing user_id")
    else if truthy data && !(isPlainObject data) then
      .error (.invalidArgument "data arg must be an Object")
    else
      let split := splitOnColon uid
      let u : MatrixUser :=
        { userId := uid
          localpart := (split.headD []).drop 1
          host := split[1]?
          _data := if truthy data then objEntries data else [] }
      .ok (if escape then u.escapeUserId else u)

/-- MatrixUser.prototype.getId. -/
def MatrixUser.getId (u : MatrixUser) : Str := u.userId

/-- MatrixUser.prototype.set. -/
def MatrixUser.set (u : MatrixUser) (k : Str) (v : JSData) : MatrixUser :=
  { u with _data := bagSet u._data k v }

/-- MatrixUser.prototype.get. -/
def MatrixUser.get (u : MatrixUser) (k : Str) : Option JSData :=
  bagGet u._data k

/-- MatrixUser.prototype.serialize: writes the current localpart into the
bag, then returns the bag. The mutated instance is returned alongside the
returned mapping. -/
def MatrixUser.serialize (u : MatrixUser) :
    MatrixUser × List (Str × JSData) :=
  let d := bagSet u._data "localpart".data (.jstr u.localpart)
  ({ u with _data := d }, d)

/-- The state of a RemoteRoom instance. The identifier is optional
(none models an absent argument); the data field keeps whatever value the
constructor stored, since no validation is performed. -/
structure RemoteRoom where
  roomId : Option Str
  data : JSData

/-- The RemoteRoom constructor. -/
def RemoteRoom.new (identifier : Option Str) (data : JSData) : RemoteRoom :=
  { roomId := identifier, data := if truthy data then data else .jobj [] }

/-- RemoteRoom.prototype.getId. -/
def RemoteRoom.getId (r : RemoteRoom) : Option Str := r.roomId

/-- Pointwise escaping relative to a character list L: characters in L are
replaced by their escape text, others kept. -/
def escapeWith (L : List Char) : Str → Str
  | [] => []
  | x :: xs => (if x ∈ L then escapeChar x else [x]) ++ escapeWith L xs

/-- Pointwise quoted-printable escaping with the minimal-length hex
encoding: the per-character description of what escapeUserId computes. -/
def qpEscape : Str → Str
  | [] => []
  | x :: xs => (if allowedChar x then [x] else escapeChar x) ++ qpEscape xs

/-- The allowed set exactly as claim C1 words it: the regex characters
plus the slash. -/
def claimAllowedChar (c : Char) : Bool := allowedChar c || c == '/'

/-- A two-digit lowercase hexadecimal encoding, as claim C1 words it. -/
def twoDigitHex (n : Nat) : Str := [hexDigit (n / 16 % 16), hexDigit (n % 16)]

/-- Escaping exactly as claim C1 words it: every character outside the
claimed allowed set becomes an equals sign followed by a two-digit
lowercase hex encoding of its code point. -/
def claimEscape : Str → Str
  | [] => []
  | x :: xs =>
    (if claimAllowedChar x then [x] else '=' :: twoDigitHex x.toNat) ++
      claimEscape xs

/-- The instance state the constructor assembles before the optional
escaping step, as written in the constructor body. -/
def rawUser (uid : Str) (data : JSData) : MatrixUser :=
  { userId := uid
    localpart := ((splitOnColon uid).headD []).drop 1
    host := (splitOnColon uid)[1]?
    _data := if truthy data then objEntries data else [] }

/-- Boolean check of the documented invariant
userId == at-sign + localpart + colon + host, with the JavaScript
string coercion of an undefined host. -/
def userIdConsistent (u : MatrixUser) : Bool :=
  u.userId == '@' :: u.localpart ++ ':' :: jsTemplateHost u.host

/-- A concrete MatrixUser with one caller-set metadata key, used to
instantiate universally quantified theorems. -/
def sampleUser : MatrixUser :=
  { userId := "@a:b".data
    localpart := "a".data
    host := some "b".data
    _data := [("k".data, .jnum 7)] }

/-- The MatrixUser the constructor produces for at-a:b with no data,
used to instantiate universally quantified theorems. -/
def plainUser : MatrixUser :=
  { userId := "@a:b".data
    localpart := "a".data
    host := some "b".data
    _data := [] }

theorem escapeWith_append (L : List Char) (s t : Str) :
    escapeWith L (s ++ t) = escapeWith L s ++ escapeWith L t := by
  induction s with
  | nil => rfl
  | cons x xs ih => simp [escapeWith, ih, List.append_assoc]

theorem escapeWith_of_disjoint (L : List Char) (t : Str)
    (h : ∀ y ∈ t, y ∉ L) : escapeWith L t = t := by
  induction t with
  | nil => rfl
  | cons x xs ih =>
    have hx : x ∉ L := h x (List.mem_cons_self x xs)
    simp [escapeWith, hx, ih (fun y hy => h y (List.mem_cons_of_mem x hy))]

theorem mem_toHexAux (fuel : Nat) (d : Char) :
    ∀ n, d ∈ toHexAux fuel n → ∃ k, k < 16 ∧ d = hexDigit k := by
  induction fuel with
  | zero => intro n h; simp [toHexAux] at h
  | succ fuel ih =>
    intro n h
    by_cases hn : n < 16
    · rw [toHexAux, if_pos hn] at h
      simp at h
      exact ⟨n, hn, h⟩
    · rw [toHexAux, if_neg hn] at h
      rcases List.mem_append.mp h with h1 | h2
      · exact ih _ h1
      · simp at h2
        exact ⟨n % 16, Nat.mod_lt _ (by omega), h2⟩

theorem hexDigit_allowed : ∀ k, k < 16 → allowedChar (hexDigit k) = true := by
  decide

theorem escapeChar_allowed (c : Char) :
    ∀ d ∈ escapeChar c, allowedChar d = true := by
  intro d hd
  rcases List.mem_cons.mp hd with h | h
  · subst h; decide
  · obtain ⟨k, hk, rfl⟩ := mem_toHexAux (c.toNat + 1) d c.toNat h
    exact hexDigit_allowed k hk

theorem replace_escapeWith (c : Char) (L : List Char) (s : Str)
    (hL : ∀ d ∈ L, allowedChar d = false) :
    escapeWith L (replaceChar c (escapeChar c) s) = escapeWith (c :: L) s := by
  induction s with
  | nil => rfl
  | cons x xs ih =>
    by_cases hx : x = c
    · subst hx
      rw [replaceChar, if_pos rfl, escapeWith_append, ih]
      have h1 : escapeWith L (escapeChar x) = escapeChar x := by
        refine escapeWith_of_disjoint L _ (fun y hy hyL => ?_)
        have h2 := escapeChar_allowed x y hy
        have h3 := hL y hyL
        simp [h2] at h3
      rw [h1]
      have hx2 : x ∈ x :: L := List.mem_cons_self x L
      rw [escapeWith, if_pos hx2]
    · rw [replaceChar, if_neg hx, escapeWith, escapeWith, ih]
      congr 1
      have hiff : x ∈ c :: L ↔ x ∈ L := by simp [List.mem_cons, hx]
      by_cases hxl : x ∈ L
      · rw [if_pos hxl, if_pos (hiff.mpr hxl)]
      · rw [if_neg hxl, if_neg (fun h2 => hxl (hiff.mp h2))]

theorem foldReplace_escapeWith (L : List Char) (s : Str)
    (hL : ∀ d ∈ L, allowedChar d = false) :
    foldReplace L s = escapeWith L s := by
  induction L generalizing s with
  | nil => exact (escapeWith_of_disjoint [] s (by simp)).symm
  | cons c L ih =>
    have hL2 : ∀ d ∈ L, allowedChar d = false :=
      fun d hd => hL d (List.mem_cons_of_mem c hd)
    have step : foldReplace (c :: L) s
        = foldReplace L (replaceChar c (escapeChar c) s) := rfl
    rw [step, ih _ hL2, replace_escapeWith c L s hL2]

theorem mem_dedupFirst (x : Char) (l : Str) :
    ∀ seen, x ∈ dedupFirst seen l ↔ (x ∈ l ∧ x ∉ seen) := by
  induction l with
  | nil => intro seen; simp [dedupFirst]
  | cons c rest ih =>
    intro seen
    by_cases hc : c ∈ seen
    · rw [dedupFirst, if_pos hc, ih seen]
      constructor
      · rintro ⟨h1, h2⟩
        exact ⟨List.mem_cons_of_mem c h1, h2⟩
      · rintro ⟨h1, h2⟩
        rcases List.mem_cons.mp h1 with rfl | h1
        · exact absurd hc h2
        · exact ⟨h1, h2⟩
    · rw [dedupFirst, if_neg hc, List.mem_cons, ih (c :: seen)]
      constructor
      · rintro (rfl | ⟨h1, h2⟩)
        · exact ⟨List.mem_cons_self _ _, hc⟩
        · exact ⟨List.mem_cons_of_mem _ h1,
            fun hs => h2 (List.mem_cons_of_mem _ hs)⟩
      · rintro ⟨h1, h2⟩
        rcases List.mem_cons.mp h1 with rfl | h1
        · exact Or.inl rfl
        · by_cases hxc : x = c
          · exact Or.inl hxc
          · refine Or.inr ⟨h1, fun hs => ?_⟩
            rcases List.mem_cons.mp hs with rfl | hs
            · exact hxc rfl
            · exact h2 hs

theorem mem_badChars (x : Char) (lp : Str) :
    x ∈ badChars lp ↔ (x ∈ lp ∧ allowedChar x = false) := by
  rw [badChars, mem_dedupFirst]
  simp [List.mem_filter]

theorem escapeWith_congr (L1 L2 : List Char) (s : Str)
    (h : ∀ x, x ∈ L1 ↔ x ∈ L2) : escapeWith L1 s = escapeWith L2 s := by
  induction s with
  | nil => rfl
  | cons x xs ih =>
    rw [escapeWith, escapeWith, ih]
    congr 1
    by_cases hx : x ∈ L1
    · rw [if_pos hx, if_pos ((h x).mp hx)]
    · rw [if_neg hx, if_neg (fun hx2 => hx ((h x).mpr hx2))]

theorem escapeWith_qp (L : List Char) (s : Str)
    (h : ∀ x ∈ s, (x ∈ L ↔ allowedChar x = false)) :
    escapeWith L s = qpEscape s := by
  induction s with
  | nil => rfl
  | cons x xs ih =>
    rw [escapeWith, qpEscape, ih (fun y hy => h y (List.mem_cons_of_mem _ hy))]
    congr 1
    have hx := h x (List.mem_cons_self x xs)
    by_cases ha : allowedChar x = true
    · rw [if_pos ha, if_neg (fun hmem => by rw [hx.mp hmem] at ha; cases ha)]
    · have hfalse : allowedChar x = false := by
        cases hb : allowedChar x
        · rfl
        · exact absurd hb ha
      rw [if_pos (hx.mpr hfalse), if_neg ha]

theorem escapeLocalpart_eq_qpEscape (lp : Str) :
    escapeLocalpart lp = qpEscape lp := by
  rw [escapeLocalpart,
    foldReplace_escapeWith _ _ (fun d hd => ((mem_badChars d lp).mp hd).2)]
  refine escapeWith_qp _ _ (fun x hx => ?_)
  rw [mem_badChars]
  exact ⟨fun h => h.2, fun h => ⟨hx, h⟩⟩

theorem splitOnColon_ne_nil (s : Str) : splitOnColon s ≠ [] := by
  cases s with
  | nil => simp [splitOnColon]
  | cons c rest =>
    rw [splitOnColon]
    split <;> simp

theorem splitOnColon_head (s : Str) :
    (splitOnColon s).headD [] = s.takeWhile (fun c => c != ':') := by
  induction s with
  | nil => rfl
  | cons c rest ih =>
    rw [splitOnColon]
    by_cases h : c = ':'
    · subst h
      rw [if_pos rfl]
      simp [List.takeWhile_cons]
    · rw [if_neg h, List.headD_cons, ih, List.takeWhile_cons]
      simp [h]

theorem getElem1_eq_tail_getElem0 (l : List Str) : l[1]? = l.tail[0]? := by
  cases l with
  | nil => rfl
  | cons a as => simp

theorem splitOnColon_second (s : Str) :
    (splitOnColon s)[1]? =
      if ':' ∈ s then
        some (((s.dropWhile (fun c => c != ':')).drop 1).takeWhile
          (fun c => c != ':'))
      else none := by
  induction s with
  | nil => simp [splitOnColon]
  | cons c rest ih =>
    rw [splitOnColon]
    by_cases h : c = ':'
    · subst h
      rw [if_pos rfl]
      have hmem : ':' ∈ ':' :: rest := List.mem_cons_self _ _
      rw [if_pos hmem]
      cases hr : splitOnColon rest with
      | nil => exact absurd hr (splitOnColon_ne_nil rest)
      | cons a as =>
        have hh := splitOnColon_head rest
        rw [hr] at hh
        simp only [List.headD_cons] at hh
        simp [List.dropWhile_cons, hh]
    · rw [if_neg h]
      have hmem : (':' ∈ c :: rest) ↔ (':' ∈ rest) := by
        constructor
        · intro hx
          rcases List.mem_cons.mp hx with hcc | hx
          · exact absurd hcc.symm h
          · exact hx
        · exact fun hx => List.mem_cons_of_mem _ hx
      have hdrop : (c :: rest).dropWhile (fun c => c != ':')
          = rest.dropWhile (fun c => c != ':') := by
        simp [List.dropWhile_cons, h]
      rw [getElem1_eq_tail_getElem0]
      simp only [List.tail_cons]
      rw [← getElem1_eq_tail_getElem0, ih, hdrop]
      by_cases hc : ':' ∈ rest
      · rw [if_pos hc, if_pos (hmem.mpr hc)]
      · rw [if_neg hc, if_neg (fun h2 => hc (hmem.mp h2))]

theorem bagGet_bagSet (b : List (Str × JSData)) (k k2 : Str) (v : JSData) :
    bagGet (bagSet b k v) k2 = if k = k2 then some v else bagGet b k2 := by
  induction b with
  | nil => simp only [bagSet, bagGet]
  | cons p rest ih =>
    obtain ⟨k1, v1⟩ := p
    by_cases h1 : k1 = k
    · subst h1
      by_cases h2 : k1 = k2 <;> simp [bagSet, bagGet, h2]
    · by_cases h2 : k1 = k2
      · subst h2
        have hk : ¬ k = k1 := fun h => h1 h.symm
        simp [bagSet, bagGet, h1, hk]
      · simp [bagSet, bagGet, h1, h2, ih]

theorem bagSet_idem (b : List (Str × JSData)) (k : Str) (v : JSData) :
    bagSet (bagSet b k v) k v = bagSet b k v := by
  induction b with
  | nil => simp [bagSet]
  | cons p rest ih =>
    obtain ⟨k1, v1⟩ := p
    by_cases h1 : k1 = k <;> simp [bagSet, h1, ih]

theorem new_ok_iff (uid : Str) (data : JSData) (esc : Bool) (u : MatrixUser) :
    MatrixUser.new (some uid) data esc = .ok u ↔
      uid.isEmpty = false ∧ (truthy data && !(isPlainObject data)) = false ∧
      u = (if esc then (rawUser uid data).escapeUserId
           else rawUser uid data) := by
  rw [MatrixUser.new]
  by_cases h1 : uid.isEmpty = true
  · simp [h1]
  · rw [if_neg h1]
    by_cases h2 : (truthy data && !(isPlainObject data)) = true
    · rw [if_pos h2]
      simp [h2]
    · rw [if_neg h2]
      constructor
      · intro h
        exact ⟨Bool.eq_false_iff.mpr h1, Bool.eq_false_iff.mpr h2,
          (Except.ok.inj h).symm⟩
      · rintro ⟨-, -, rfl⟩
        rfl

theorem escapeUserId_data (u : MatrixUser) :
    u.escapeUserId._data = u._data := rfl

theorem escapeUserId_host (u : MatrixUser) :
    u.escapeUserId.host = u.host := rfl

theorem escapeLocalpart_of_allowed (lp : Str)
    (h : ∀ c ∈ lp, allowedChar c = true) : escapeLocalpart lp = lp := by
  have hf : lp.filter (fun c => !(allowedChar c)) = [] := by
    rw [List.filter_eq_nil_iff]
    intro a ha
    simp [h a ha]
  rw [escapeLocalpart, badChars, hf]
  rfl

/-- Claim C1, counterexample. The claim says the slash is in the allowed
set and that every disallowed character is encoded with exactly two hex
digits even below 0x10. On the localpart consisting of a slash followed by
the character with code point 1, escapeUserId escapes the slash and uses a
one-digit encoding, while the claimed transform keeps the slash and uses a
two-digit encoding. -/
theorem escapeUserId_claim_cex :
    (MatrixUser.mk ('@' :: '/' :: Char.ofNat 1 :: ':' :: 'h' :: [])
        ['/', Char.ofNat 1] (some ['h']) []).escapeUserId.localpart
      = "=2f=1".data ∧
    claimEscape ['/', Char.ofNat 1] = "/=01".data ∧
    "=2f=1".data ≠ "/=01".data := by
  refine ⟨by decide, by decide, by decide⟩

/-- Claim C1, amended. For every localpart, escapeUserId rewrites each
character as follows: characters matched by the regex class
(A-Z, a-z, 0-9, dash, dot, equals, underscore - the slash is NOT allowed
and is escaped) are kept, and every other character becomes an equals sign
followed by the minimal-length lowercase hexadecimal encoding of its code
point (one digit below 0x10, two digits from 0x10 to 0xFF, more above). -/
theorem escapeUserId_pointwise (u : MatrixUser) :
    u.escapeUserId.localpart = qpEscape u.localpart :=
  escapeLocalpart_eq_qpEscape u.localpart

/-- Claim C2, counterexample. For the userId at-u:h:x the claim says the
host is everything after the first colon, h:x, but the constructor stores
only the second colon-separated segment, h. -/
theorem constructor_host_cex :
    (MatrixUser.new (some "@u:h:x".data) .jundefined false).map
        MatrixUser.host
      = .ok (some "h".data) ∧
    some "h".data ≠ some "h:x".data := by
  refine ⟨by rfl, by decide⟩

/-- Claim C2, amended. For every accepted userId, the constructor takes
everything before the first colon minus the leading at-sigil as localpart
(directly observable when escaping is disabled), and the host is the
segment between the first and second colon - not everything after the
first colon - and is absent when the userId has no colon. -/
theorem constructor_split_amended :
    ∀ uid data esc u, MatrixUser.new (some uid) data esc = .ok u →
      u.host = (if ':' ∈ uid then
          some (((uid.dropWhile (fun c => c != ':')).drop 1).takeWhile
            (fun c => c != ':'))
        else none) ∧
      (esc = false →
        u.localpart = (uid.takeWhile (fun c => c != ':')).drop 1) := by
  intro uid data esc u h
  obtain ⟨-, -, rfl⟩ := (new_ok_iff uid data esc u).mp h
  constructor
  · cases esc with
    | false =>
      rw [if_neg (by decide)]
      show (rawUser uid data).host = _
      rw [rawUser]
      exact splitOnColon_second uid
    | true =>
      rw [if_pos rfl, escapeUserId_host, rawUser]
      exact splitOnColon_second uid
  · intro hesc
    subst hesc
    rw [if_neg (by decide)]
    show ((splitOnColon uid).headD []).drop 1 = _
    rw [splitOnColon_head]

/-- Claim C2, witness for the amended theorem at the userId at-u:h:x. -/
theorem constructor_split_amended_witness :
    ({ userId := "@u:h:x".data, localpart := "u".data,
       host := some "h".data, _data := [] } : MatrixUser).host
      = (if ':' ∈ "@u:h:x".data then
          some ((("@u:h:x".data.dropWhile (fun c => c != ':')).drop
            1).takeWhile (fun c => c != ':'))
        else none) ∧
    (false = false →
      ({ userId := "@u:h:x".data, localpart := "u".data,
         host := some "h".data, _data := [] } : MatrixUser).localpart
        = ("@u:h:x".data.takeWhile (fun c => c != ':')).drop 1) :=
  constructor_split_amended "@u:h:x".data .jundefined false _ (by rfl)

/-- Claim C3, counterexample. With escaping disabled and the userId
at-a:b:c, the claimed invariant userId == at + localpart + colon + host
fails immediately after construction: the userId keeps its third segment
while the right-hand side drops it. -/
theorem userId_invariant_cex :
    (MatrixUser.new (some "@a:b:c".data) .jundefined false).map
        userIdConsistent
      = .ok false := by rfl

/-- Claim C3, amended. The invariant userId == at + localpart + colon +
host holds after construction whenever the escape flag is true (the
default), and after every run of the escaping step on any instance; with
escape=false the constructor stores the userId verbatim, so the invariant
can fail (see the counterexample). -/
theorem userId_invariant_amended :
    (∀ uid data u, MatrixUser.new (some uid) data true = .ok u →
      u.userId = '@' :: u.localpart ++ ':' :: jsTemplateHost u.host) ∧
    (∀ u : MatrixUser,
      u.escapeUserId.userId
        = '@' :: u.escapeUserId.localpart
            ++ ':' :: jsTemplateHost u.escapeUserId.host) := by
  constructor
  · intro uid data u h
    obtain ⟨-, -, rfl⟩ := (new_ok_iff uid data true u).mp h
    rw [if_pos rfl]
    rfl
  · intro u
    rfl

/-- Claim C3, witness for the amended theorem: the constructed user for
at-a:b with escaping on, and one explicit run of the escaping step. -/
theorem userId_invariant_amended_witness :
    plainUser.userId
      = '@' :: plainUser.localpart ++ ':' :: jsTemplateHost plainUser.host ∧
    sampleUser.escapeUserId.userId
      = '@' :: sampleUser.escapeUserId.localpart
          ++ ':' :: jsTemplateHost sampleUser.escapeUserId.host :=
  ⟨userId_invariant_amended.1 "@a:b".data .jundefined plainUser (by rfl),
   userId_invariant_amended.2 sampleUser⟩

/-- Claim C4, counterexample. The claim says a null data argument is
rejected with InvalidArgument, but null is falsy, so the guard
data && toString-check never fires: construction succeeds and the bag is
empty. -/
theorem null_data_accepted_cex :
    MatrixUser.new (some "@a:b".data) .jnull true = .ok plainUser := by rfl

/-- Claim C4, amended. For every non-empty userId, a data argument that is
truthy and not a plain key-value object (arrays, non-empty strings,
non-zero numbers, true) is rejected with InvalidArgument; a falsy data
argument (null, undefined, false, zero, the empty string) is not rejected
but treated as absent, and the instance gets an empty metadata bag. -/
theorem data_validation_amended :
    ∀ uid data esc, uid.isEmpty = false →
      (truthy data = true → isPlainObject data = false →
        MatrixUser.new (some uid) data esc
          = .error (.invalidArgument "data arg must be an Object")) ∧
      (truthy data = false →
        (MatrixUser.new (some uid) data esc).map MatrixUser._data
          = .ok []) := by
  intro uid data esc hu
  constructor
  · intro ht hp
    rw [MatrixUser.new, if_neg (by simp [hu]), if_pos (by simp [ht, hp])]
  · intro ht
    rw [MatrixUser.new, if_neg (by simp [hu]), if_neg (by simp [ht])]
    cases esc with
    | false => simp [Except.map, ht]
    | true => simp [Except.map, escapeUserId_data, ht]

/-- Claim C4, witness for the amended theorem: an array argument is
rejected, a null argument yields an empty bag. -/
theorem data_validation_amended_witness :
    (MatrixUser.new (some "@a:b".data) (.jarr []) true
      = .error (.invalidArgument "data arg must be an Object")) ∧
    ((MatrixUser.new (some "@a:b".data) .jnull true).map MatrixUser._data
      = .ok []) :=
  ⟨(data_validation_amended "@a:b".data (.jarr []) true (by decide)).1
      (by decide) (by decide),
   (data_validation_amended "@a:b".data .jnull true (by decide)).2
      (by decide)⟩

/-- Claim C5: constructing a MatrixUser with an empty or absent userId
fails with InvalidArgument; in the Except embedding the error value
carries no instance state, so construction either fully succeeds or is
rejected with no partial state. -/
theorem missing_userId_rejected :
    ∀ uidOpt data esc, (uidOpt = none ∨ uidOpt = some []) →
      MatrixUser.new uidOpt data esc
        = .error (.invalidArgument "Missing user_id") := by
  rintro uidOpt data esc (rfl | rfl)
  · rfl
  · rfl

/-- Claim C5, witness at an absent userId. -/
theorem missing_userId_rejected_witness :
    MatrixUser.new none .jundefined true
      = .error (.invalidArgument "Missing user_id") :=
  missing_userId_rejected none .jundefined true (Or.inl rfl)

/-- Claim C6: the final string produced by the escaping loop is the same
for any iteration order over the set of distinct disallowed characters:
any two orderings of badChars yield the same result. -/
theorem escape_order_independent :
    ∀ lp L1 L2, L1.Perm (badChars lp) → L2.Perm (badChars lp) →
      foldReplace L1 lp = foldReplace L2 lp := by
  intro lp L1 L2 h1 h2
  have hb : ∀ d ∈ badChars lp, allowedChar d = false :=
    fun d hd => ((mem_badChars d lp).mp hd).2
  rw [foldReplace_escapeWith L1 lp (fun d hd => hb d (h1.subset hd)),
    foldReplace_escapeWith L2 lp (fun d hd => hb d (h2.subset hd))]
  exact escapeWith_congr _ _ _ (fun x => by rw [h1.mem_iff, h2.mem_iff])

/-- Claim C6, witness: the two orderings of the two distinct disallowed
characters of the localpart space-bang-a give the same escaped string. -/
theorem escape_order_independent_witness :
    foldReplace [' ', '!'] " !a".data = foldReplace ['!', ' '] " !a".data :=
  escape_order_independent " !a".data [' ', '!'] ['!', ' ']
    (by decide) (by decide)

/-- Claim C7: on a localpart whose characters are all in the allowed set,
the escaping step is a no-op on the localpart no matter how many times it
is applied. -/
theorem escape_noop_on_valid :
    ∀ (u : MatrixUser) n, (∀ c ∈ u.localpart, allowedChar c = true) →
      (MatrixUser.escapeUserId^[n] u).localpart = u.localpart := by
  intro u n
  induction n generalizing u with
  | zero => intro h; rfl
  | succ n ih =>
    intro h
    have hloc : u.escapeUserId.localpart = u.localpart :=
      escapeLocalpart_of_allowed u.localpart h
    rw [Function.iterate_succ_apply,
      ih u.escapeUserId (by rw [hloc]; exact h), hloc]

/-- Claim C7, witness: two applications of the escaping step leave the
localpart already.valid_123 unchanged. -/
theorem escape_noop_on_valid_witness :
    (MatrixUser.escapeUserId^[2]
      { userId := "@already.valid_123:example.com".data
        localpart := "already.valid_123".data
        host := some "example.com".data
        _data := [] }).localpart = "already.valid_123".data :=
  escape_noop_on_valid
    { userId := "@already.valid_123:example.com".data
      localpart := "already.valid_123".data
      host := some "example.com".data
      _data := [] } 2 (by decide)

/-- Claim C8: every call to serialize returns a mapping that contains the
key localpart bound to the instance's current localpart, and every other
key keeps the value the caller stored. -/
theorem serialize_includes_localpart :
    ∀ u : MatrixUser,
      bagGet (u.serialize).2 "localpart".data = some (.jstr u.localpart) ∧
      ∀ k, k ≠ "localpart".data →
        bagGet (u.serialize).2 k = bagGet u._data k := by
  intro u
  constructor
  · show bagGet (bagSet u._data "localpart".data (.jstr u.localpart))
        "localpart".data = some (.jstr u.localpart)
    rw [bagGet_bagSet, if_pos rfl]
  · intro k hk
    show bagGet (bagSet u._data "localpart".data (.jstr u.localpart)) k
        = bagGet u._data k
    rw [bagGet_bagSet, if_neg (fun h => hk h.symm)]

/-- Claim C8, witness on a user with one caller-set key k. -/
theorem serialize_includes_localpart_witness :
    bagGet (sampleUser.serialize).2 "localpart".data
      = some (.jstr sampleUser.localpart) ∧
    bagGet (sampleUser.serialize).2 "k".data
      = bagGet sampleUser._data "k".data :=
  ⟨(serialize_includes_localpart sampleUser).1,
   (serialize_includes_localpart sampleUser).2 "k".data (by decide)⟩

/-- Claim C9: serialize only touches the localpart entry of the bag -
every other key's value is as before the call, a value previously stored
under the key localpart via set is overwritten with the instance's
localpart, and serializing again with no mutation in between returns an
equal mapping. -/
theorem serialize_frame :
    ∀ (u : MatrixUser) (v : JSData),
      (∀ k, k ≠ "localpart".data →
        bagGet (u.serialize).2 k = bagGet u._data k) ∧
      bagGet ((u.set "localpart".data v).serialize).2 "localpart".data
        = some (.jstr u.localpart) ∧
      ((u.serialize).1.serialize).2 = (u.serialize).2 := by
  intro u v
  refine ⟨fun k hk => ?_, ?_, ?_⟩
  · show bagGet (bagSet u._data "localpart".data (.jstr u.localpart)) k
        = bagGet u._data k
    rw [bagGet_bagSet, if_neg (fun h => hk h.symm)]
  · show bagGet (bagSet (bagSet u._data "localpart".data v)
        "localpart".data (.jstr u.localpart)) "localpart".data
        = some (.jstr u.localpart)
    rw [bagGet_bagSet, if_pos rfl]
  · show bagSet (bagSet u._data "localpart".data (.jstr u.localpart))
        "localpart".data (.jstr u.localpart)
        = bagSet u._data "localpart".data (.jstr u.localpart)
    exact bagSet_idem u._data "localpart".data (.jstr u.localpart)

/-- Claim C9, witness on a user with one caller-set key k and a value
previously stored under localpart. -/
theorem serialize_frame_witness :
    bagGet (sampleUser.serialize).2 "k".data
      = bagGet sampleUser._data "k".data ∧
    bagGet ((sampleUser.set "localpart".data (.jnum 3)).serialize).2
        "localpart".data
      = some (.jstr sampleUser.localpart) ∧
    ((sampleUser.serialize).1.serialize).2 = (sampleUser.serialize).2 :=
  ⟨(serialize_frame sampleUser (.jnum 3)).1 "k".data (by decide),
   (serialize_frame sampleUser (.jnum 3)).2.1,
   (serialize_frame sampleUser (.jnum 3)).2.2⟩

/-- Claim C10: the RemoteRoom constructor validates nothing - for every
identifier, including the empty string or an absent identifier,
construction succeeds, getId returns exactly the identifier passed, and a
falsy data argument is replaced by an empty mapping. -/
theorem remoteRoom_no_validation :
    ∀ (idf : Option Str) (d : JSData),
      (RemoteRoom.new idf d).getId = idf ∧
      (truthy d = false → (RemoteRoom.new idf d).data = .jobj []) := by
  intro idf d
  refine ⟨rfl, fun h => ?_⟩
  show (if truthy d then d else .jobj []) = .jobj []
  rw [h]
  rfl

/-- Claim C10, witness at the empty-string identifier with null data. -/
theorem remoteRoom_no_validation_witness :
    (RemoteRoom.new (some []) .jnull).getId = some [] ∧
    (RemoteRoom.new (some []) .jnull).data = .jobj [] :=
  ⟨(remoteRoom_no_validation (some []) .jnull).1,
   (remoteRoom_no_validation (some []) .jnull).2 (by decide)⟩
